import Mathlib

/-!
Verification of the Fara'id inheritance-distribution repository.

Shallow embedding of `src/src/App.tsx` (the only source file of the
repository) together with a model, built from the specification's own
words, of the distribution engine that the source delegates to an
external service (`calculateInheritance` from `./services/geminiService`
is imported but its code is not part of the given sources).

Conventions:
* JavaScript numbers are modelled as exact rationals (`ℚ`); none of the
  computations verified here involve overflow or `NaN` on the inputs
  considered.
* Survivor counts are `ℕ` (the form only produces non-negative integers).
* The localized display strings (`TRANSLATIONS`) live in files that are
  not part of the given sources; a UI list entry's display name
  `labels.<class>` (+ 1-based index for group members) is therefore
  modelled by the pair of a class tag and an index.
-/

namespace Faraid

/-- UI language, from `types` (values used by `App.tsx`: `'ar'`, `'en'`). -/
inductive Language where
  | ar
  | en
deriving DecidableEq

/-- Gender enumeration `DeceasedGender` from `types`. -/
inductive DeceasedGender where
  | male
  | female
deriving DecidableEq

/-- The form state `HeirsData` (`App.tsx`, lines 20–36). -/
structure HeirsData where
  deceasedGender : DeceasedGender
  estateValue : ℚ
  currency : String
  debts : ℚ
  willAmount : ℚ
  hasHusband : Bool
  wivesCount : ℕ
  sonsCount : ℕ
  daughtersCount : ℕ
  hasFather : Bool
  hasMother : Bool
  fullBrothersCount : ℕ
  fullSistersCount : ℕ
  paternalBrothersCount : ℕ
  paternalSistersCount : ℕ
deriving DecidableEq

/-- One share of the external service's response (`results.shares` entries,
used by `App.tsx` via `s.heir`, `s.amount`, `s.sharePercentage`,
`s.shareFraction`). -/
structure ShareEntry where
  heir : String
  amount : ℚ
  sharePercentage : ℚ
  shareFraction : String
deriving DecidableEq

/-- The external service's response as consumed by `App.tsx`. -/
structure CalculationResponse where
  shares : List ShareEntry
deriving DecidableEq

/-- The record returned by the `netEstateCalculations` memo
(`App.tsx`, lines 52–58). -/
structure NetEstateView where
  estate : ℚ
  debts : ℚ
  will : ℚ
  net : ℚ
  isWillOverLimit : Bool
deriving DecidableEq

/-- Source memo `netEstateCalculations` (`App.tsx`, lines 45–59):
`initialRemainder = Math.max(0, estate - debts)`, `maxWill = estate / 3`,
`net = Math.max(0, initialRemainder - actualWill)`,
`isWillOverLimit = actualWill > maxWill && estate > 0`.
The `|| 0` fallbacks on the numeric form fields are identities here since
the fields are always numbers in the model. -/
def netEstateCalculations (fd : HeirsData) : NetEstateView :=
  let estate := fd.estateValue
  let debts := fd.debts
  let initialRemainder := max 0 (estate - debts)
  let maxWill := estate / 3
  let actualWill := fd.willAmount
  let net := max 0 (initialRemainder - actualWill)
  { estate := estate
    debts := debts
    will := actualWill
    net := net
    isWillOverLimit := decide (maxWill < actualWill) && decide (0 < estate) }

/-- A `HeirsData` value with the given estate value, debts and will amount
and no surviving relatives (defaults of the form state otherwise). -/
def mkFD (e d w : ℚ) : HeirsData :=
  { deceasedGender := .male
    estateValue := e
    currency := "SAR"
    debts := d
    willAmount := w
    hasHusband := false
    wivesCount := 0
    sonsCount := 0
    daughtersCount := 0
    hasFather := false
    hasMother := false
    fullBrothersCount := 0
    fullSistersCount := 0
    paternalBrothersCount := 0
    paternalSistersCount := 0 }

/-- Warnings of the specified engine (§7): `BequestCapped {excessAmount}`
and `UnresolvedRemainder {fraction, amount}`. -/
inductive Warning where
  | bequestCapped (excessAmount : ℚ)
  | unresolvedRemainder (fraction : ℚ) (amount : ℚ)
deriving DecidableEq

/-- The `NetEstate` breakdown of the specified engine (§3, §4.2, §6):
`distributable = max(0, estateValue − debts)`, the bequest actually
applied, and the resulting net (`netEstate = distributable −
appliedBequest`). -/
structure NetEstateInfo where
  estateValue : ℚ
  debts : ℚ
  appliedBequest : ℚ
  distributable : ℚ
  net : ℚ
deriving DecidableEq

/-- Modelled from the spec: the Net Estate Calculator (§4.2), which is not
implemented in `src/` (the source's `netEstateCalculations` subtracts the
raw will instead; the engine itself is delegated to the absent
`services/geminiService`). `distributable = max(0, estateValue − debts)`;
`cap = distributable / 3`; `appliedBequest = min(bequest, cap)`; a
`BequestCapped` warning carrying the excess when `bequest > cap`;
`netEstate = distributable − appliedBequest`. -/
def netEstateCalc (estateValue debts bequest : ℚ) : NetEstateInfo × List Warning :=
  let distributable := max 0 (estateValue - debts)
  let cap := distributable / 3
  let applied := min bequest cap
  (⟨estateValue, debts, applied, distributable, distributable - applied⟩,
    if cap < bequest then [Warning.bequestCapped (bequest - cap)] else [])

/-- C1 counterexample: at estate 100000, debts 40000, bequest 30000 the
source's `netEstateCalculations` yields net 30000 (the raw bequest is
subtracted) and no over-limit flag, while the claimed computation
(cap at one third of the debts-reduced distributable, subtract the capped
bequest) yields net 40000 with the bequest capped at 20000. -/
theorem netEstate_subtracts_raw_bequest_cex :
    (netEstateCalculations (mkFD 100000 40000 30000)).net = 30000 ∧
      (netEstateCalc 100000 40000 30000).1.net = 40000 ∧
      (netEstateCalculations (mkFD 100000 40000 30000)).net ≠
        (netEstateCalc 100000 40000 30000).1.net ∧
      (netEstateCalculations (mkFD 100000 40000 30000)).isWillOverLimit = false ∧
      max 0 ((100000 : ℚ) - 40000) / 3 < 30000 := by
  refine ⟨?_, ?_, ?_, ?_, ?_⟩ <;> norm_num [netEstateCalculations, netEstateCalc, mkFD]

/-- C1 amended: the source's net-estate memo computes
`distributable = max(0, estateValue − debts)` and then
`net = max(0, distributable − willAmount)` — the raw bequest, not a capped
one, is subtracted; the one-third comparison only feeds the boolean
`isWillOverLimit` flag, which is measured against `estateValue / 3`
(the raw estate), not against the debts-reduced distributable. -/
theorem netEstateCalculations_net_eq (fd : HeirsData) :
    (netEstateCalculations fd).net
      = max 0 (max 0 (fd.estateValue - fd.debts) - fd.willAmount) := rfl

/-- C2 counterexample: for estate 90000, debts 0, bequest 40000 the
source's memo returns net 50000, not the claimed 60000. -/
theorem scenarioD_code_cex :
    (netEstateCalculations (mkFD 90000 0 40000)).net = 50000 ∧
      (netEstateCalculations (mkFD 90000 0 40000)).net ≠ 60000 := by
  constructor <;> norm_num [netEstateCalculations, mkFD]

/-- C2 amended: for estate 90000, debts 0, bequest 40000 the source's memo
yields `maxWill = 30000`, sets the bare boolean `isWillOverLimit` (no
excess amount is recorded anywhere), and computes net 50000 by
subtracting the raw 40000 bequest. -/
theorem scenarioD_code_behavior :
    netEstateCalculations (mkFD 90000 0 40000)
      = { estate := 90000, debts := 0, will := 40000, net := 50000,
          isWillOverLimit := true } := by
  norm_num [netEstateCalculations, mkFD, NetEstateView.mk.injEq]

/-- C3 counterexample: at estate 90000, debts 30000, bequest 25000 the raw
bequest (25000) exceeds one third of the debts-reduced estate
(60000 / 3 = 20000), yet the source sets no over-limit flag (it compares
against `estateValue / 3 = 30000` instead), so the claimed "reported if
and only if" equivalence fails. -/
theorem willOverLimit_ignores_debts_cex :
    (netEstateCalculations (mkFD 90000 30000 25000)).isWillOverLimit = false ∧
      max 0 ((90000 : ℚ) - 30000) / 3 < 25000 := by
  constructor <;> norm_num [netEstateCalculations, mkFD]

/-- C3 amended: the source's flag is set if and only if the bequest
exceeds one third of the *raw* estate value (and the estate is positive);
the flag is a bare boolean carrying no excess amount, and the computation
proceeds with the raw bequest subtracted in full. -/
theorem willOverLimit_iff (fd : HeirsData) :
    ((netEstateCalculations fd).isWillOverLimit = true
        ↔ fd.estateValue / 3 < fd.willAmount ∧ 0 < fd.estateValue) ∧
      (netEstateCalculations fd).net
        = max 0 (max 0 (fd.estateValue - fd.debts) - fd.willAmount) := by
  refine ⟨?_, rfl⟩
  simp [netEstateCalculations]

/-- The closed enumeration of heir classes (spec §3 `HeirClass`). The same
tags are used to record which branch of the source's `individualHeirs`
memo produced a list entry (the branch is identified in the source by the
`labels.<class>` display string it uses). -/
inductive HeirClass where
  | husband
  | wifeGroup
  | father
  | mother
  | sonGroup
  | daughterGroup
  | fullBrotherGroup
  | fullSisterGroup
  | paternalBrotherGroup
  | paternalSisterGroup
deriving DecidableEq

/-- Whether `needle` is a leading segment of `hay` (helper for JavaScript's
`String.prototype.includes`). -/
def leadMatch : List Char → List Char → Bool
  | [], _ => true
  | _ :: _, [] => false
  | a :: as, b :: bs => a == b && leadMatch as bs

/-- Whether `needle` occurs as a contiguous segment of the second list
(JavaScript's `String.prototype.includes` on exploded strings). -/
def subIn (needle : List Char) : List Char → Bool
  | [] => needle.isEmpty
  | b :: bs => leadMatch needle (b :: bs) || subIn needle bs

/-- Model of `hay.toLowerCase().includes(needle.toLowerCase())` as used by
`getShare` (`App.tsx`, line 66). `Char.toLower` lower-cases ASCII letters,
which agrees with JavaScript `toLowerCase` on the keyword alphabet used by
the source (ASCII English words and case-less Arabic). -/
def strIncludes (hay needle : String) : Bool :=
  subIn (needle.data.map Char.toLower) (hay.data.map Char.toLower)

/-- Source helper `getShare` (`App.tsx`, lines 65–66):
`results.shares.find(s => keywords.some(k => s.heir.toLowerCase().includes(k.toLowerCase())))`. -/
def getShare (keywords : List String) (shares : List ShareEntry) : Option ShareEntry :=
  shares.find? (fun s => keywords.any (fun k => strIncludes s.heir k))

/-- Keyword list of the husband branch (`App.tsx`, line 68). -/
def husbandKeywords : List String := ["husband", "زوج"]

/-- Keyword list of the wives branch (`App.tsx`, line 72). -/
def wifeKeywords : List String := ["wife", "wives", "زوجة", "زوجات"]

/-- Keyword list of the father branch (`App.tsx`, line 87). -/
def fatherKeywords : List String := ["father", "أب"]

/-- Keyword list of the mother branch (`App.tsx`, line 91). -/
def motherKeywords : List String := ["mother", "أم"]

/-- Keyword list of the sons branch (`App.tsx`, line 95). -/
def sonKeywords : List String := ["son", "sons", "ابن", "أبناء"]

/-- Keyword list of the daughters branch (`App.tsx`, line 110). -/
def daughterKeywords : List String := ["daughter", "daughters", "بنت", "بنات", "ابنة"]

/-- Keyword list of the full-brothers branch (`App.tsx`, line 125). -/
def fullBrotherKeywords : List String := ["full brother", "أخ شقيق"]

/-- Keyword list of the full-sisters branch (`App.tsx`, line 135). -/
def fullSisterKeywords : List String := ["full sister", "أخت شقيقة"]

/-- One entry of the source's `individualHeirs` list. The source stores a
localized display name built from `labels.<class>` plus a 1-based index
for group members; the (absent) `TRANSLATIONS` table is abstracted away,
so the name is modelled by the producing class tag `cls` and the index
`idx` (0 for the singular husband/father/mother entries). -/
structure HeirEntry where
  cls : HeirClass
  idx : ℕ
  amount : ℚ
  percentage : ℚ
  fraction : String
deriving DecidableEq

/-- A singular branch of `individualHeirs` (husband, father, mother):
`if (s) list.push({name: labels.x, amount: s.amount, percentage:
s.sharePercentage, fraction: s.shareFraction})`. -/
def optEntry (c : HeirClass) (o : Option ShareEntry) : List HeirEntry :=
  match o with
  | some s => [{ cls := c, idx := 0, amount := s.amount,
                 percentage := s.sharePercentage, fraction := s.shareFraction }]
  | none => []

/-- A group branch body of `individualHeirs`: the matched class amount and
percentage are divided by the member count and one entry per member is
pushed (loop `for i = 1..count`). -/
def groupEntries (c : HeirClass) (n : ℕ) (s : ShareEntry) : List HeirEntry :=
  (List.range n).map fun i =>
    { cls := c, idx := i + 1, amount := s.amount / (n : ℚ),
      percentage := s.sharePercentage / (n : ℚ), fraction := s.shareFraction }

/-- A group branch of `individualHeirs` (`if (s) { ... for ... push }`). -/
def optGroup (c : HeirClass) (n : ℕ) (o : Option ShareEntry) : List HeirEntry :=
  match o with
  | some s => groupEntries c n s
  | none => []

/-- The `individualHeirs` memo (`App.tsx`, lines 61–145): eight guarded
blocks pushed in source order. The paternal-sibling counts of the form are
never consulted. -/
def individualHeirs (results : CalculationResponse) (fd : HeirsData) : List HeirEntry :=
  (if fd.hasHusband then optEntry .husband (getShare husbandKeywords results.shares) else [])
    ++ (if 0 < fd.wivesCount then
          optGroup .wifeGroup fd.wivesCount (getShare wifeKeywords results.shares) else [])
    ++ (if fd.hasFather then optEntry .father (getShare fatherKeywords results.shares) else [])
    ++ (if fd.hasMother then optEntry .mother (getShare motherKeywords results.shares) else [])
    ++ (if 0 < fd.sonsCount then
          optGroup .sonGroup fd.sonsCount (getShare sonKeywords results.shares) else [])
    ++ (if 0 < fd.daughtersCount then
          optGroup .daughterGroup fd.daughtersCount (getShare daughterKeywords results.shares)
        else [])
    ++ (if 0 < fd.fullBrothersCount then
          optGroup .fullBrotherGroup fd.fullBrothersCount
            (getShare fullBrotherKeywords results.shares)
        else [])
    ++ (if 0 < fd.fullSistersCount then
          optGroup .fullSisterGroup fd.fullSistersCount
            (getShare fullSisterKeywords results.shares)
        else [])

/-- Source handler `handleCalculate` (`App.tsx`, lines 147–159) sets the displayed results
to whatever the external service returns for the current form data and
language: `const res = await calculateInheritance(formData, lang);
setResults(res)`. The external service is a parameter of the model. -/
def handleCalculate (calculateInheritance : HeirsData → Language → CalculationResponse)
    (formData : HeirsData) (lang : Language) : CalculationResponse :=
  calculateInheritance formData lang

/-- The group heir classes expanded member-by-member by `individualHeirs`. -/
def groupClasses : List HeirClass :=
  [.wifeGroup, .sonGroup, .daughterGroup, .fullBrotherGroup, .fullSisterGroup]

/-- Member count of a group class in the form data. -/
def classCount (fd : HeirsData) : HeirClass → ℕ
  | .wifeGroup => fd.wivesCount
  | .sonGroup => fd.sonsCount
  | .daughterGroup => fd.daughtersCount
  | .fullBrotherGroup => fd.fullBrothersCount
  | .fullSisterGroup => fd.fullSistersCount
  | _ => 0

/-- Keyword list the source uses for a group class. -/
def classKeywords : HeirClass → List String
  | .wifeGroup => wifeKeywords
  | .sonGroup => sonKeywords
  | .daughterGroup => daughterKeywords
  | .fullBrotherGroup => fullBrotherKeywords
  | .fullSisterGroup => fullSisterKeywords
  | _ => []

/-- The entries of `individualHeirs` produced for class `c`. -/
def entriesOf (c : HeirClass) (l : List HeirEntry) : List HeirEntry :=
  l.filter fun e => decide (e.cls = c)

lemma entriesOf_append (c : HeirClass) (l1 l2 : List HeirEntry) :
    entriesOf c (l1 ++ l2) = entriesOf c l1 ++ entriesOf c l2 := by
  simp [entriesOf]

lemma entriesOf_ite (c : HeirClass) (b : Prop) [Decidable b] (l : List HeirEntry) :
    entriesOf c (if b then l else []) = if b then entriesOf c l else [] := by
  split <;> rfl

lemma entriesOf_optEntry (c c' : HeirClass) (o : Option ShareEntry) :
    entriesOf c (optEntry c' o) = if c' = c then optEntry c' o else [] := by
  cases o <;> split <;> simp_all [entriesOf, optEntry]

lemma cls_mem_groupEntries (c : HeirClass) (n : ℕ) (s : ShareEntry) (e : HeirEntry)
    (he : e ∈ groupEntries c n s) : e.cls = c := by
  simp only [groupEntries, List.mem_map] at he
  obtain ⟨i, -, rfl⟩ := he
  rfl

lemma entriesOf_groupEntries (c c' : HeirClass) (n : ℕ) (s : ShareEntry) :
    entriesOf c (groupEntries c' n s) = if c' = c then groupEntries c' n s else [] := by
  rcases eq_or_ne c' c with rfl | h
  · rw [if_pos rfl]
    exact List.filter_eq_self.mpr fun e he => by
      simp [cls_mem_groupEntries c' n s e he]
  · rw [if_neg h]
    refine List.filter_eq_nil_iff.mpr fun e he => ?_
    simp [cls_mem_groupEntries c' n s e he, h]

lemma entriesOf_optGroup (c c' : HeirClass) (n : ℕ) (o : Option ShareEntry) :
    entriesOf c (optGroup c' n o) = if c' = c then optGroup c' n o else [] := by
  cases o with
  | none => simp [optGroup, entriesOf]
  | some s => simpa [optGroup] using entriesOf_groupEntries c c' n s

lemma entriesOf_individualHeirs_group (r : CalculationResponse) (fd : HeirsData)
    (c : HeirClass) (hc : c ∈ groupClasses) :
    entriesOf c (individualHeirs r fd)
      = if 0 < classCount fd c then
          optGroup c (classCount fd c) (getShare (classKeywords c) r.shares)
        else [] := by
  have hmem := hc
  simp only [groupClasses, List.mem_cons, List.not_mem_nil, or_false] at hmem
  rcases hmem with rfl | rfl | rfl | rfl | rfl <;>
    simp [individualHeirs, classCount, classKeywords, entriesOf_append, entriesOf_ite,
      entriesOf_optEntry, entriesOf_optGroup]

lemma sum_map_constant {α : Type} (l : List α) (x : ℚ) :
    (l.map fun _ => x).sum = l.length * x := by
  induction l with
  | nil => simp
  | cons a t ih => simp [ih]; ring

/-- C5: for every group heir class with a positive member count and a
matched class share, `individualHeirs` pushes exactly `n` entries for it,
each carrying `amount / n`, and the entry amounts sum back to the class
amount. -/
theorem even_split (r : CalculationResponse) (fd : HeirsData) (c : HeirClass) (s : ShareEntry)
    (hc : c ∈ groupClasses) (hn : 0 < classCount fd c)
    (hs : getShare (classKeywords c) r.shares = some s) :
    (entriesOf c (individualHeirs r fd)).length = classCount fd c ∧
      (∀ e ∈ entriesOf c (individualHeirs r fd),
        e.amount = s.amount / (classCount fd c : ℚ)) ∧
      ((entriesOf c (individualHeirs r fd)).map HeirEntry.amount).sum = s.amount := by
  have hE : entriesOf c (individualHeirs r fd) = groupEntries c (classCount fd c) s := by
    rw [entriesOf_individualHeirs_group r fd c hc, if_pos hn, hs]
    rfl
  rw [hE]
  have hn0 : ((classCount fd c : ℚ)) ≠ 0 := Nat.cast_ne_zero.mpr hn.ne'
  refine ⟨by simp [groupEntries], ?_, ?_⟩
  · intro e he
    simp only [groupEntries, List.mem_map] at he
    obtain ⟨i, -, rfl⟩ := he
    rfl
  · simp only [groupEntries, List.map_map, Function.comp_def]
    rw [show (fun i : ℕ =>
        HeirEntry.amount
          { cls := c, idx := i + 1, amount := s.amount / (classCount fd c : ℚ),
            percentage := s.sharePercentage / (classCount fd c : ℚ),
            fraction := s.shareFraction })
        = fun _ : ℕ => s.amount / (classCount fd c : ℚ) from rfl]
    rw [sum_map_constant, List.length_range, mul_comm, div_mul_cancel₀ s.amount hn0]

/-- Wives share entry used to exercise the even-split theorem. -/
def s5 : ShareEntry :=
  { heir := "Wives", amount := 10000, sharePercentage := 10, shareFraction := "1/8" }

/-- External response containing only the wives share. -/
def r5 : CalculationResponse := ⟨[s5]⟩

/-- Form data with two wives. -/
def fd5 : HeirsData := { mkFD 80000 0 0 with wivesCount := 2 }

/-- C5 witness at two wives sharing a 10000 class amount. -/
theorem even_split_witness :
    HeirClass.wifeGroup ∈ groupClasses ∧ 0 < classCount fd5 .wifeGroup ∧
      getShare (classKeywords .wifeGroup) r5.shares = some s5 ∧
      ((entriesOf .wifeGroup (individualHeirs r5 fd5)).length = classCount fd5 .wifeGroup ∧
        (∀ e ∈ entriesOf .wifeGroup (individualHeirs r5 fd5),
          e.amount = s5.amount / (classCount fd5 .wifeGroup : ℚ)) ∧
        ((entriesOf .wifeGroup (individualHeirs r5 fd5)).map HeirEntry.amount).sum
          = s5.amount) :=
  ⟨by decide, by decide, by decide,
    even_split r5 fd5 .wifeGroup s5 (by decide) (by decide) (by decide)⟩

/-- An external-service stand-in returning no shares. -/
def serviceEmpty : HeirsData → Language → CalculationResponse := fun _ _ => ⟨[]⟩

/-- An external-service stand-in returning a husband share. -/
def serviceHusbandOnly : HeirsData → Language → CalculationResponse :=
  fun _ _ => ⟨[{ heir := "Husband", amount := 22500, sharePercentage := 25,
                 shareFraction := "1/4" }]⟩

/-- C6 counterexample: the displayed result of `handleCalculate` is not a
function of the form data and language alone — with identical input, two
possible behaviors of the external `calculateInheritance` service yield
different outputs, so the source-level computation depends on the
external call. -/
theorem handleCalculate_external_cex :
    handleCalculate serviceEmpty (mkFD 90000 0 0) Language.en
      ≠ handleCalculate serviceHusbandOnly (mkFD 90000 0 0) Language.en := by
  decide

/-- C6 amended: the distribution is delegated in full to the external
service (`handleCalculate` returns exactly the service's response), and
the in-source post-processing is pure — identical input *and* identical
external response yield identical displayed output. -/
theorem handleCalculate_deterministic_given_response
    (f g : HeirsData → Language → CalculationResponse) (fd : HeirsData) (lang : Language)
    (h : f fd lang = g fd lang) :
    handleCalculate f fd lang = f fd lang ∧
      handleCalculate f fd lang = handleCalculate g fd lang ∧
      individualHeirs (handleCalculate f fd lang) fd
        = individualHeirs (handleCalculate g fd lang) fd := by
  unfold handleCalculate
  rw [h]
  exact ⟨rfl, rfl, rfl⟩

/-- C6 amended-claim witness: the determinism-given-identical-response
theorem applied at a concrete service and input. -/
theorem handleCalculate_deterministic_given_response_witness :
    serviceHusbandOnly (mkFD 90000 0 0) Language.en
        = serviceHusbandOnly (mkFD 90000 0 0) Language.en ∧
      (handleCalculate serviceHusbandOnly (mkFD 90000 0 0) Language.en
          = serviceHusbandOnly (mkFD 90000 0 0) Language.en ∧
        handleCalculate serviceHusbandOnly (mkFD 90000 0 0) Language.en
          = handleCalculate serviceHusbandOnly (mkFD 90000 0 0) Language.en ∧
        individualHeirs (handleCalculate serviceHusbandOnly (mkFD 90000 0 0) Language.en)
            (mkFD 90000 0 0)
          = individualHeirs (handleCalculate serviceHusbandOnly (mkFD 90000 0 0) Language.en)
              (mkFD 90000 0 0)) :=
  ⟨rfl, handleCalculate_deterministic_given_response serviceHusbandOnly serviceHusbandOnly
    (mkFD 90000 0 0) Language.en rfl⟩

/-- Share entry whose heir name is "Grandson" — not one of the heir
classes handled by the UI, but its name contains "son". -/
def sGrand : ShareEntry :=
  { heir := "Grandson", amount := 500, sharePercentage := 50, shareFraction := "1/2" }

/-- External response containing only the grandson share. -/
def rGrand : CalculationResponse := ⟨[sGrand]⟩

/-- Form data with one son. -/
def fdGrand : HeirsData := { mkFD 1000 0 0 with sonsCount := 1 }

/-- C7 counterexample: the UI reconstructs class identity by
case-insensitive substring matching on heir display names — a share whose
heir name is "Grandson" is matched by the sons keyword list (it contains
"son") and displayed as the son's individual share. -/
theorem substring_match_cex :
    getShare sonKeywords rGrand.shares = some sGrand ∧
      individualHeirs rGrand fdGrand
        = [{ cls := .sonGroup, idx := 1, amount := 500, percentage := 50,
             fraction := "1/2" }] := by
  have hg : getShare sonKeywords rGrand.shares = some sGrand := by decide
  refine ⟨hg, ?_⟩
  have hL : individualHeirs rGrand fdGrand = groupEntries .sonGroup 1 sGrand := by
    simp [individualHeirs, fdGrand, mkFD, hg, optGroup]
  rw [hL]
  simp [groupEntries, sGrand, List.range_succ]

/-- C7 amended: the UI layer keys shares by keyword substring search, not
by stable enum tags: whenever `getShare` selects a share for a class, the
selection is justified solely by a case-insensitive substring hit of one
of the class's keywords inside the share's localized heir name. -/
theorem getShare_matches_by_substring (keywords : List String) (shares : List ShareEntry)
    (s : ShareEntry) (h : getShare keywords shares = some s) :
    s ∈ shares ∧ keywords.any (fun k => strIncludes s.heir k) = true := by
  have h' : shares.find? (fun s' => keywords.any fun k => strIncludes s'.heir k) = some s := h
  exact ⟨List.mem_of_find?_eq_some h', by simpa using List.find?_some h'⟩

/-- C7 amended-claim witness at the grandson share. -/
theorem getShare_matches_by_substring_witness :
    getShare sonKeywords rGrand.shares = some sGrand ∧
      (sGrand ∈ rGrand.shares ∧
        sonKeywords.any (fun k => strIncludes sGrand.heir k) = true) :=
  ⟨by decide, getShare_matches_by_substring sonKeywords rGrand.shares sGrand (by decide)⟩

lemma entriesOf_individualHeirs_paternalBrother (r : CalculationResponse) (fd : HeirsData) :
    entriesOf .paternalBrotherGroup (individualHeirs r fd) = [] := by
  simp [individualHeirs, entriesOf_append, entriesOf_ite, entriesOf_optEntry, entriesOf_optGroup]

lemma entriesOf_individualHeirs_paternalSister (r : CalculationResponse) (fd : HeirsData) :
    entriesOf .paternalSisterGroup (individualHeirs r fd) = [] := by
  simp [individualHeirs, entriesOf_append, entriesOf_ite, entriesOf_optEntry, entriesOf_optGroup]

/-- C9: even when paternal siblings are entered on the form, every entry of
the displayed individual-heirs list belongs to one of the eight handled
classes — no paternal (consanguine) sibling entry ever appears. -/
theorem no_paternal_entries (r : CalculationResponse) (fd : HeirsData)
    (h : 0 < fd.paternalBrothersCount ∨ 0 < fd.paternalSistersCount) :
    ∀ e ∈ individualHeirs r fd,
      e.cls ≠ .paternalBrotherGroup ∧ e.cls ≠ .paternalSisterGroup ∧
        e.cls ∈ ([.husband, .wifeGroup, .father, .mother, .sonGroup, .daughterGroup,
          .fullBrotherGroup, .fullSisterGroup] : List HeirClass) := by
  intro e he
  have h1 : e.cls ≠ .paternalBrotherGroup := by
    intro hq
    have hmem : e ∈ entriesOf .paternalBrotherGroup (individualHeirs r fd) := by
      simp [entriesOf, List.mem_filter, he, hq]
    rw [entriesOf_individualHeirs_paternalBrother r fd] at hmem
    simp at hmem
  have h2 : e.cls ≠ .paternalSisterGroup := by
    intro hq
    have hmem : e ∈ entriesOf .paternalSisterGroup (individualHeirs r fd) := by
      simp [entriesOf, List.mem_filter, he, hq]
    rw [entriesOf_individualHeirs_paternalSister r fd] at hmem
    simp at hmem
  refine ⟨h1, h2, ?_⟩
  cases hcase : e.cls <;> simp_all

/-- Form data with a husband and two paternal brothers. -/
def fd9 : HeirsData :=
  { mkFD 50000 0 0 with hasHusband := true, paternalBrothersCount := 2 }

/-- Husband share entry for the paternal-sibling witness. -/
def s9 : ShareEntry :=
  { heir := "Husband", amount := 12500, sharePercentage := 25, shareFraction := "1/4" }

/-- External response containing only the husband share. -/
def r9 : CalculationResponse := ⟨[s9]⟩

/-- The husband entry displayed for `fd9`/`r9`. -/
def e9 : HeirEntry :=
  { cls := .husband, idx := 0, amount := 12500, percentage := 25, fraction := "1/4" }

/-- C9 witness: with paternal brothers entered, the displayed entry still
belongs to the eight handled classes. -/
theorem no_paternal_entries_witness :
    (0 < fd9.paternalBrothersCount ∨ 0 < fd9.paternalSistersCount) ∧
      (e9.cls ≠ .paternalBrotherGroup ∧ e9.cls ≠ .paternalSisterGroup ∧
        e9.cls ∈ ([.husband, .wifeGroup, .father, .mother, .sonGroup, .daughterGroup,
          .fullBrotherGroup, .fullSisterGroup] : List HeirClass)) :=
  ⟨Or.inl (by decide),
    no_paternal_entries r9 fd9 (Or.inl (by decide)) e9 (by decide)⟩

/-- C10: a group class with a positive count whose keyword list matches no
returned share is silently dropped — `individualHeirs` contains no entry
for it (the memo returns only the list; there is no warning or error
channel). -/
theorem unmatched_class_omitted (r : CalculationResponse) (fd : HeirsData) (c : HeirClass)
    (hc : c ∈ groupClasses) (hn : 0 < classCount fd c)
    (hs : getShare (classKeywords c) r.shares = none) :
    entriesOf c (individualHeirs r fd) = [] := by
  rw [entriesOf_individualHeirs_group r fd c hc, if_pos hn, hs]
  rfl

/-- Form data with a husband and one son. -/
def fd10 : HeirsData := { mkFD 100000 0 0 with hasHusband := true, sonsCount := 1 }

/-- Husband share entry for the omission witness. -/
def s10 : ShareEntry :=
  { heir := "Husband", amount := 25000, sharePercentage := 25, shareFraction := "1/4" }

/-- External response carrying a husband share but no son share. -/
def r10 : CalculationResponse := ⟨[s10]⟩

/-- C10 witness: the son (count 1) matches no share, yields no entry, and
the displayed amounts sum to 25000, strictly less than the net estate of
100000. -/
theorem unmatched_class_omitted_witness :
    HeirClass.sonGroup ∈ groupClasses ∧ 0 < classCount fd10 .sonGroup ∧
      getShare (classKeywords .sonGroup) r10.shares = none ∧
      entriesOf .sonGroup (individualHeirs r10 fd10) = [] ∧
      ((individualHeirs r10 fd10).map HeirEntry.amount).sum
        < (netEstateCalculations fd10).net :=
  ⟨by decide, by decide, by decide,
    unmatched_class_omitted r10 fd10 .sonGroup (by decide) (by decide) (by decide),
    by
      have hL : individualHeirs r10 fd10
          = [{ cls := .husband, idx := 0, amount := 25000, percentage := 25,
               fraction := "1/4" }] := by decide
      rw [hL]
      norm_num [netEstateCalculations, fd10, mkFD]⟩

/-- Modelled from the spec: `ValidationError {field, reason}` (§7), the
fatal failure of the engine, whose implementation is not under `src/`. -/
structure ValidationError where
  field : String
  reason : String
deriving DecidableEq

/-- Modelled from the spec: `EstateInput` (§3). Counts are `ℕ`, so the
"non-negative integer" invariant on counts holds by type. -/
structure EstateInput where
  deceasedSex : DeceasedGender
  estateValue : ℚ
  debts : ℚ
  bequest : ℚ
  hasHusband : Bool
  wivesCount : ℕ
  sonsCount : ℕ
  daughtersCount : ℕ
  hasFather : Bool
  hasMother : Bool
  fullBrothersCount : ℕ
  fullSistersCount : ℕ
  paternalBrothersCount : ℕ
  paternalSistersCount : ℕ
deriving DecidableEq

/-- An `EstateInput` with the given estate value, debts and bequest and no
surviving relatives. -/
def mkEI (e d b : ℚ) : EstateInput :=
  { deceasedSex := .male
    estateValue := e
    debts := d
    bequest := b
    hasHusband := false
    wivesCount := 0
    sonsCount := 0
    daughtersCount := 0
    hasFather := false
    hasMother := false
    fullBrothersCount := 0
    fullSistersCount := 0
    paternalBrothersCount := 0
    paternalSistersCount := 0 }

/-- Modelled from the spec: the Input Validator (§4.1), not implemented in
`src/` (the source performs no validation; its engine call is external).
Checks: counts non-negative (by type), wives count ≤ 4, husband-present
and wives-count mutually exclusive, debts ≤ estate value, bequest ≥ 0.
The spec does not fix a reporting order among simultaneously violated
checks; the debts check is evaluated first here (§8 Scenario C singles it
out). Returns the input unchanged when every check passes. -/
def validate (i : EstateInput) : Except ValidationError EstateInput :=
  if i.estateValue < i.debts then
    .error ⟨"debts", "debts cannot exceed estate value"⟩
  else if 4 < i.wivesCount then
    .error ⟨"wivesCount", "wives count must be at most 4"⟩
  else if i.hasHusband = true ∧ 0 < i.wivesCount then
    .error ⟨"wivesCount", "husband and wives are mutually exclusive"⟩
  else if i.bequest < 0 then
    .error ⟨"bequest", "bequest must be non-negative"⟩
  else
    .ok i

/-- C4: whenever debts exceed the estate value, validation fails with a
`ValidationError` on the `debts` field rather than producing a
distribution; whenever every §4.1 check passes, the input is returned
unchanged. -/
theorem validate_spec (i : EstateInput) :
    (i.estateValue < i.debts →
        validate i = .error ⟨"debts", "debts cannot exceed estate value"⟩) ∧
      (i.debts ≤ i.estateValue → i.wivesCount ≤ 4 →
        ¬(i.hasHusband = true ∧ 0 < i.wivesCount) → 0 ≤ i.bequest →
        validate i = .ok i) := by
  constructor
  · intro h
    simp only [validate]
    rw [if_pos h]
  · intro h1 h2 h3 h4
    simp only [validate]
    rw [if_neg (not_lt.mpr h1), if_neg (by omega), if_neg h3, if_neg (not_lt.mpr h4)]

/-- Input whose debts exceed its estate value. -/
def inputBad : EstateInput := mkEI 100 200 0

/-- Input passing every validation check. -/
def inputGood : EstateInput := mkEI 100 50 10

/-- C4 witness: a debts-exceeding input fails on the `debts` field and a
well-formed input is returned unchanged. -/
theorem validate_spec_witness :
    (inputBad.estateValue < inputBad.debts ∧
        validate inputBad = .error ⟨"debts", "debts cannot exceed estate value"⟩) ∧
      validate inputGood = .ok inputGood :=
  ⟨⟨by norm_num [inputBad, mkEI],
      (validate_spec inputBad).1 (by norm_num [inputBad, mkEI])⟩,
    (validate_spec inputGood).2 (by norm_num [inputGood, mkEI]) (by decide) (by decide)
      (by norm_num [inputGood, mkEI])⟩

/-- Modelled from the spec: "any descendant survives" (§4.4). -/
def hasDesc (i : EstateInput) : Bool := decide (0 < i.sonsCount + i.daughtersCount)

/-- Modelled from the spec: the sibling head-count used by the mother's
1/6-vs-1/3 rule (§4.4, "two-or-more siblings survive"). -/
def siblingTotal (i : EstateInput) : ℕ :=
  i.fullBrothersCount + i.fullSistersCount + i.paternalBrothersCount + i.paternalSistersCount

/-- Spouse classes (radd leaves them at their fixed fraction, §4.6). -/
def isSpouseClass : HeirClass → Bool
  | .husband => true
  | .wifeGroup => true
  | _ => false

/-- Modelled from the spec: the fixed Qur'anic fractions of §4.4 for every
class except the father, with the §4.3 exclusions folded in (father and
sons exclude sibling classes; full brothers exclude paternal siblings;
sisters' fixed fractions require no father, no son, no same-tier brothers
and — since with daughters they shift to the §4.5 residuary role — no
daughters; the spec leaves the full-sister/paternal-sister residuary
interplay open, resolved here by letting full sisters also block the
paternal sisters' fixed fraction). -/
def fixedNF (i : EstateInput) : List (HeirClass × ℚ) :=
  (if i.hasHusband then [(.husband, if hasDesc i then (1 : ℚ)/4 else 1/2)] else [])
    ++ (if 0 < i.wivesCount then
          [(.wifeGroup, if hasDesc i then (1 : ℚ)/8 else 1/4)] else [])
    ++ (if i.hasMother then
          [(.mother, if hasDesc i = true ∨ 2 ≤ siblingTotal i then (1 : ℚ)/6 else 1/3)]
        else [])
    ++ (if 0 < i.daughtersCount ∧ i.sonsCount = 0 then
          [(.daughterGroup, if i.daughtersCount = 1 then (1 : ℚ)/2 else 2/3)] else [])
    ++ (if 0 < i.fullSistersCount ∧ i.hasFather = false ∧ i.sonsCount = 0 ∧
            i.fullBrothersCount = 0 ∧ i.daughtersCount = 0 then
          [(.fullSisterGroup, if i.fullSistersCount = 1 then (1 : ℚ)/2 else 2/3)] else [])
    ++ (if 0 < i.paternalSistersCount ∧ i.hasFather = false ∧ i.sonsCount = 0 ∧
            i.fullBrothersCount = 0 ∧ i.fullSistersCount = 0 ∧ i.daughtersCount = 0 then
          [(.paternalSisterGroup, if i.paternalSistersCount = 1 then (1 : ℚ)/2 else 2/3)]
        else [])

/-- Modelled from the spec: the father's fixed 1/6 when a descendant
survives (§4.4); without descendants he is purely residuary. -/
def fatherFixedShare (i : EstateInput) : List (HeirClass × ℚ) :=
  if i.hasFather && hasDesc i then [(.father, (1 : ℚ)/6)] else []

/-- Modelled from the spec: a 2:1 per-head male/female split of the
residue `r` between a brother-type class (`m` heads counted twice) and its
sister-type class (§4.5). -/
def residSplit (cm cf : HeirClass) (r : ℚ) (m f : ℕ) : List (HeirClass × ℚ) :=
  (if 0 < m then [(cm, r * (2 * m : ℚ) / ((2 * m : ℚ) + (f : ℚ)))] else [])
    ++ (if 0 < f then [(cf, r * (f : ℚ) / ((2 * m : ℚ) + (f : ℚ)))] else [])

/-- Modelled from the spec: fixed-share assignment (§4.4) followed by the
residual distribution in priority order (§4.5): sons (with daughters 2:1
per head), else father (absorbing the residue on top of any fixed 1/6),
else full brothers (with full sisters 2:1), else full sisters as
residuary-with-daughters, else the paternal group under the same rules.
When no residuary class exists the under-subscription is left to the
normalizer (§4.6 radd / `UnresolvedRemainder`). -/
def awarded (i : EstateInput) : List (HeirClass × ℚ) :=
  let fx := fatherFixedShare i ++ fixedNF i
  let s := (fx.map Prod.snd).sum
  let r := 1 - s
  if r ≤ 0 then fx
  else if 0 < i.sonsCount then
    fx ++ residSplit .sonGroup .daughterGroup r i.sonsCount i.daughtersCount
  else if i.hasFather then
    fixedNF i ++ [(.father, (if hasDesc i then (1 : ℚ)/6 else 0) + r)]
  else if 0 < i.fullBrothersCount then
    fx ++ residSplit .fullBrotherGroup .fullSisterGroup r i.fullBrothersCount i.fullSistersCount
  else if 0 < i.fullSistersCount ∧ 0 < i.daughtersCount then
    fx ++ [(.fullSisterGroup, r)]
  else if 0 < i.paternalBrothersCount then
    fx ++ residSplit .paternalBrotherGroup .paternalSisterGroup r i.paternalBrothersCount
      i.paternalSistersCount
  else if 0 < i.paternalSistersCount ∧ 0 < i.daughtersCount then
    fx ++ [(.paternalSisterGroup, r)]
  else fx

/-- Modelled from the spec: the Awl/Radd Normalizer (§4.6). Awl: if the
fraction sum exceeds 1, every fraction is scaled by its reciprocal. Radd:
if the sum falls short of 1 with no residuary heir having absorbed it,
blood-relative classes absorb the shortfall in proportion to their
entitlements while spouse classes keep their fixed fraction (the literal
§4.6 scaling text is adjusted to match §8 Scenario A and conservation:
blood fractions are scaled by `(1 − spouseSum)/bloodSum`). If no
blood-relative recipient exists (spouse-only, or no recipient at all),
the shortfall is reported as the unresolved fraction. -/
def normalizeShares (l : List (HeirClass × ℚ)) : List (HeirClass × ℚ) × Option ℚ :=
  let s := (l.map Prod.snd).sum
  if 1 < s then (l.map fun p => (p.1, p.2 / s), none)
  else if s < 1 then
    let sp := ((l.filter fun p => isSpouseClass p.1).map Prod.snd).sum
    if 0 < s - sp then
      (l.map fun p => if isSpouseClass p.1 then p else (p.1, p.2 * ((1 - sp) / (s - sp))),
        none)
    else (l, some (1 - s))
  else (l, none)

/-- Modelled from the spec: `ClassShare` (§3, §6). -/
structure ClassShare where
  heirClass : HeirClass
  fraction : ℚ
  amount : ℚ
  memberCount : ℕ
deriving DecidableEq

/-- Modelled from the spec: `IndividualShare` (§3, §6). -/
structure IndividualShare where
  heirClass : HeirClass
  memberIndex : ℕ
  amount : ℚ
deriving DecidableEq

/-- Modelled from the spec: `DistributionResult` (§3, §6). -/
structure DistributionResult where
  netEstate : NetEstateInfo
  classShares : List ClassShare
  individualShares : List IndividualShare
  warnings : List Warning
deriving DecidableEq

/-- Modelled from the spec: member count per heir class (§3: 1 for
singular classes, the input count for group classes). -/
def memberCount (i : EstateInput) : HeirClass → ℕ
  | .husband => 1
  | .wifeGroup => i.wivesCount
  | .father => 1
  | .mother => 1
  | .sonGroup => i.sonsCount
  | .daughterGroup => i.daughtersCount
  | .fullBrotherGroup => i.fullBrothersCount
  | .fullSisterGroup => i.fullSistersCount
  | .paternalBrotherGroup => i.paternalBrothersCount
  | .paternalSisterGroup => i.paternalSistersCount

/-- Modelled from the spec: expansion of a class total into equal
per-member shares with 1-based member indices (§4.6, §6). -/
def expandShare (cs : ClassShare) : List IndividualShare :=
  (List.range cs.memberCount).map fun j =>
    { heirClass := cs.heirClass, memberIndex := j + 1,
      amount := cs.amount / (cs.memberCount : ℚ) }

/-- Modelled from the spec: the engine entry point
`compute(input) -> DistributionResult | ValidationError` (§6), composing
validation, net-estate calculation, share assignment and normalization. -/
def compute (i : EstateInput) : Except ValidationError DistributionResult :=
  match validate i with
  | .error e => .error e
  | .ok v =>
    let ne := (netEstateCalc v.estateValue v.debts v.bequest).1
    let shares := (normalizeShares (awarded v)).1.map fun p =>
      ClassShare.mk p.1 p.2 (p.2 * ne.net) (memberCount v p.1)
    .ok
      { netEstate := ne
        classShares := shares
        individualShares := shares.flatMap expandShare
        warnings := (netEstateCalc v.estateValue v.debts v.bequest).2
          ++ (match (normalizeShares (awarded v)).2 with
              | some f => [Warning.unresolvedRemainder f (f * ne.net)]
              | none => []) }

/-- Whether a warning is an `UnresolvedRemainder`. -/
def isUnresolvedW : Warning → Bool
  | .unresolvedRemainder _ _ => true
  | .bequestCapped _ => false

/-- Whether a warning list carries an `UnresolvedRemainder`. -/
def hasUnresolved (ws : List Warning) : Bool := ws.any isUnresolvedW

lemma sum_map_scale (l : List (HeirClass × ℚ)) (c : ℚ) :
    ((l.map fun p => (p.1, p.2 / c)).map Prod.snd).sum = (l.map Prod.snd).sum / c := by
  rw [List.map_map]
  induction l with
  | nil => simp
  | cons a t ih =>
    simp only [List.map_cons, List.sum_cons, Function.comp_apply, ih]
    ring

lemma sum_map_radd (l : List (HeirClass × ℚ)) (k : ℚ) :
    ((l.map fun p => if isSpouseClass p.1 then p else (p.1, p.2 * k)).map Prod.snd).sum
      = ((l.filter fun p => isSpouseClass p.1).map Prod.snd).sum
        + k * ((l.map Prod.snd).sum
          - ((l.filter fun p => isSpouseClass p.1).map Prod.snd).sum) := by
  induction l with
  | nil => simp
  | cons a t ih =>
    by_cases hsp : isSpouseClass a.1 = true
    · simp only [List.map_cons, List.sum_cons, List.filter_cons, hsp, if_pos, ih]
      ring
    · simp only [List.map_cons, List.sum_cons, List.filter_cons, hsp, Bool.false_eq_true,
        if_neg, ih, if_false]
      ring

lemma normalizeShares_sum (l : List (HeirClass × ℚ)) (h : (normalizeShares l).2 = none) :
    ((normalizeShares l).1.map Prod.snd).sum = 1 := by
  simp only [normalizeShares] at h ⊢
  by_cases h1 : 1 < (l.map Prod.snd).sum
  · rw [if_pos h1]
    dsimp only
    rw [sum_map_scale]
    exact div_self (lt_trans zero_lt_one h1).ne'
  · rw [if_neg h1]
    by_cases h2 : (l.map Prod.snd).sum < 1
    · rw [if_pos h2]
      rw [if_neg h1, if_pos h2] at h
      by_cases h3 : 0 < (l.map Prod.snd).sum
          - ((l.filter fun p => isSpouseClass p.1).map Prod.snd).sum
      · rw [if_pos h3]
        dsimp only
        rw [sum_map_radd, div_mul_cancel₀ _ h3.ne']
        ring
      · rw [if_neg h3] at h
        simp at h
    · rw [if_neg h2]
      dsimp only
      linarith [not_lt.mp h1, not_lt.mp h2]

lemma sum_map_classShare (l : List (HeirClass × ℚ)) (c : ℚ) (mc : HeirClass → ℕ) :
    ((l.map fun p => ClassShare.mk p.1 p.2 (p.2 * c) (mc p.1)).map ClassShare.amount).sum
      = (l.map Prod.snd).sum * c := by
  rw [List.map_map]
  induction l with
  | nil => simp
  | cons a t ih =>
    simp only [List.map_cons, List.sum_cons, Function.comp_apply, ih]
    ring

/-- C8: for every successful result of the modelled engine whose warning
list carries no `UnresolvedRemainder`, the class-share amounts sum exactly
to the net estate. -/
theorem conservation (i : EstateInput) (res : DistributionResult)
    (hok : compute i = Except.ok res) (hw : hasUnresolved res.warnings = false) :
    (res.classShares.map ClassShare.amount).sum = res.netEstate.net := by
  unfold compute at hok
  cases hv : validate i with
  | error e => rw [hv] at hok; cases hok
  | ok v =>
    rw [hv] at hok
    simp only at hok
    injection hok with hok
    subst hok
    simp only at hw ⊢
    cases hu : (normalizeShares (awarded v)).2 with
    | some f =>
      rw [hu] at hw
      simp [hasUnresolved, List.any_append, isUnresolvedW] at hw
    | none =>
      rw [sum_map_classShare, normalizeShares_sum (awarded v) hu, one_mul]

/-- Scenario-A-style engine input: husband, one daughter, estate 120000,
no debts, no bequest. -/
def inputA : EstateInput := { mkEI 120000 0 0 with hasHusband := true, daughtersCount := 1 }

/-- The distribution the modelled engine returns for `inputA`: the
husband keeps 1/4 and radd raises the daughter to 3/4. -/
def resultA : DistributionResult :=
  { netEstate := { estateValue := 120000, debts := 0, appliedBequest := 0,
                   distributable := 120000, net := 120000 }
    classShares := [⟨.husband, 1/4, 30000, 1⟩, ⟨.daughterGroup, 3/4, 90000, 1⟩]
    individualShares := [⟨.husband, 1, 30000⟩, ⟨.daughterGroup, 1, 90000⟩]
    warnings := [] }

lemma computeA_eval : compute inputA = Except.ok resultA := by
  norm_num [compute, validate, inputA, mkEI, netEstateCalc, awarded, fixedNF,
    fatherFixedShare, residSplit, hasDesc, siblingTotal, normalizeShares, isSpouseClass,
    memberCount, expandShare, resultA, List.range_succ, List.filter_cons,
    Except.ok.injEq, DistributionResult.mk.injEq, NetEstateInfo.mk.injEq,
    ClassShare.mk.injEq, IndividualShare.mk.injEq]

/-- C8 witness: the conservation theorem at `inputA`; the two class
amounts 30000 and 90000 sum to the 120000 net estate. -/
theorem conservation_witness :
    compute inputA = Except.ok resultA ∧ hasUnresolved resultA.warnings = false ∧
      (resultA.classShares.map ClassShare.amount).sum = resultA.netEstate.net :=
  ⟨computeA_eval, by decide, conservation inputA resultA computeA_eval (by decide)⟩

end Faraid
